import Mathlib

/-!
Verification of the browser-use repository's trajectory analyzer
(`analyze_agent_run.py`) and session-state manager (`auth_manager.py`).

Strings from the Python source are embedded as `List Char`; the regex
searches of `_parse_log` are embedded as explicit left-to-right scans with
Python `re` semantics (leftmost match, lazy capture `(.*?)` that cannot
cross a newline, `$` matching at end of input or just before a final
newline). Filesystem and library effects (screenshot existence, PIL
transcoding, keyring, Fernet, the browser context) are passed in as
explicit capabilities, so every function is total and executable.
-/

namespace Analyze

/-- The marker of `re.search(r'🚀 Starting task: (.*?)\n', content)`. -/
def taskMarker : List Char := "🚀 Starting task: ".toList

/-- The header marker of the step pattern `r'📍 Step (\d+)\n(.*?)(?=📍 Step \d+|$)'`. -/
def stepHeaderMarker : List Char := "📍 Step ".toList

/-- The part of the evaluation pattern `r'([👍👎🤷]) Eval: (.*?)\n'` after the emoji. -/
def evalTail : List Char := " Eval: ".toList

/-- The marker of `re.search(r'🎯 Next goal: (.*?)\n', step_content)`. -/
def goalMarker : List Char := "🎯 Next goal: ".toList

/-- The literal prefix of the action pattern `r'🛠️  Action \d+/\d+: (.*?)\n'`
("🛠️" is two code points: the tool emoji and a variation selector). -/
def actionMarker : List Char := "🛠️  Action ".toList

/-- The lazy capture `(.*?)\n` starting at a given position: the characters up
to the first newline, or `none` when no newline follows (then the regex match
attempt at this start position fails, since `.` does not cross a newline). -/
def takeToNewline : List Char → Option (List Char)
  | [] => none
  | c :: rest => if c = '\n' then some [] else (takeToNewline rest).map (c :: ·)

/-- Maximal-munch `\d+`: the leading run of decimal digits and the remainder.
For the source's patterns the greedy `\d+` is always followed by a non-digit
literal, so maximal munch is exactly the regex behaviour. -/
def takeDigits : List Char → List Char × List Char
  | [] => ([], [])
  | c :: rest =>
    if c.isDigit then
      let p := takeDigits rest
      (c :: p.1, p.2)
    else ([], c :: rest)

/-- `int` applied to a captured digit string. -/
def digitsToNat (ds : List Char) : Nat :=
  ds.foldl (fun acc c => 10 * acc + (c.toNat - '0'.toNat)) 0

/-- `re.search` for a pattern `marker(.*?)\n`: scan left to right; at the
first position where the literal marker matches and the rest of its line is
newline-terminated, return the captured group. -/
def searchCapture (marker : List Char) : List Char → Option (List Char)
  | [] => none
  | c :: rest =>
    if marker.isPrefixOf (c :: rest) then
      match takeToNewline ((c :: rest).drop marker.length) with
      | some cap => some cap
      | none => searchCapture marker rest
    else searchCapture marker rest

/-- The character class `[👍👎🤷]` of the evaluation pattern. -/
def evalEmoji (c : Char) : Bool := c == '👍' || c == '👎' || c == '🤷'

/-- One match attempt of `([👍👎🤷]) Eval: (.*?)\n` at the start of `s`,
returning group 2 (the free text used for the `evaluation` field). -/
def matchEvalAt (s : List Char) : Option (List Char) :=
  match s with
  | [] => none
  | c :: rest =>
    if evalEmoji c && evalTail.isPrefixOf rest then
      takeToNewline (rest.drop evalTail.length)
    else none

/-- `re.search(r'([👍👎🤷]) Eval: (.*?)\n', step_content)`, group 2. -/
def searchEval : List Char → Option (List Char)
  | [] => none
  | c :: rest =>
    match matchEvalAt (c :: rest) with
    | some cap => some cap
    | none => searchEval rest

/-- One match attempt of `🛠️  Action \d+/\d+: (.*?)\n` at the start of `s`,
returning the captured free text. -/
def matchActionAt (s : List Char) : Option (List Char) :=
  if actionMarker.isPrefixOf s then
    match takeDigits (s.drop actionMarker.length) with
    | ([], _) => none
    | (_ :: _, rest2) =>
      match rest2 with
      | '/' :: r3 =>
        match takeDigits r3 with
        | ([], _) => none
        | (_ :: _, r4) =>
          match r4 with
          | ':' :: ' ' :: r5 => takeToNewline r5
          | _ => none
      | _ => none
  else none

/-- `re.search(r'🛠️  Action \d+/\d+: (.*?)\n', step_content)`, the capture. -/
def searchAction : List Char → Option (List Char)
  | [] => none
  | c :: rest =>
    match matchActionAt (c :: rest) with
    | some cap => some cap
    | none => searchAction rest

/-- The lookahead `(?=📍 Step \d+)`: the header marker followed by at least
one digit. -/
def lookaheadHeader (s : List Char) : Bool :=
  stepHeaderMarker.isPrefixOf s &&
    (match s.drop stepHeaderMarker.length with
     | c :: _ => c.isDigit
     | [] => false)

/-- One match attempt of the step header `📍 Step (\d+)\n` at the start of
`s`: the step number and the remainder after the header's newline. -/
def headerAt (s : List Char) : Option (Nat × List Char) :=
  if stepHeaderMarker.isPrefixOf s then
    match takeDigits (s.drop stepHeaderMarker.length) with
    | ([], _) => none
    | (d :: ds, rest2) =>
      match rest2 with
      | '\n' :: rest3 => some (digitsToNat (d :: ds), rest3)
      | _ => none
  else none

/-- The lazy DOTALL group `(.*?)(?=📍 Step \d+|$)` of the step pattern:
the captured content and the suffix at which the lookahead succeeded. With
the suffix representation, `$` (no MULTILINE) holds exactly at the empty
suffix (end of input) and at the suffix `['\n']` (just before a final
newline). -/
def scanContent : List Char → List Char × List Char
  | [] => ([], [])
  | c :: rest =>
    if lookaheadHeader (c :: rest) || (c = '\n' && rest.isEmpty) then
      ([], c :: rest)
    else
      let p := scanContent rest
      (c :: p.1, p.2)

/-- `re.finditer(r'📍 Step (\d+)\n(.*?)(?=📍 Step \d+|$)', content, re.DOTALL)`:
the list of (step number, step content) matches, scanning left to right and
resuming each search at the previous match's end. The fuel argument only
bounds the recursion; one unit per character scanned always suffices
(`findStepsFuel_eq_of_le` below). -/
def findStepsFuel : Nat → List Char → List (Nat × List Char)
  | 0, _ => []
  | _, [] => []
  | fuel + 1, c :: rest =>
    match headerAt (c :: rest) with
    | some nr =>
      let p := scanContent nr.2
      (nr.1, p.1) :: findStepsFuel fuel p.2
    | none => findStepsFuel fuel rest

/-- All step-pattern matches of `content`. -/
def findSteps (content : List Char) : List (Nat × List Char) :=
  findStepsFuel content.length content

/-- One parsed step of `AgentRunAnalyzer._parse_log` (one entry of
`self.steps`). The screenshot path is keyed by the step number; `none`
models the `None` stored when `os.path.exists` fails. -/
structure StepRecord where
  step_number : Nat
  evaluation : List Char
  next_goal : List Char
  action : List Char
  screenshot_path : Option Nat
deriving DecidableEq, Repr

/-- The dictionary appended to `self.steps` for one step match, with the
filesystem existence check passed in as the capability `screenshotExists`. -/
def buildStep (screenshotExists : Nat → Bool) (n : Nat) (content : List Char) :
    StepRecord :=
  { step_number := n
    evaluation := (searchEval content).getD "Unknown".toList
    next_goal := (searchCapture goalMarker content).getD []
    action := (searchAction content).getD []
    screenshot_path := if screenshotExists n then some n else none }

/-- The parse result of one log file: `self.task` and `self.steps`. -/
structure RunTranscript where
  task : List Char
  steps : List StepRecord
deriving DecidableEq, Repr

/-- `AgentRunAnalyzer._parse_log` over the log text. -/
def parse_log (screenshotExists : Nat → Bool) (content : List Char) :
    RunTranscript :=
  { task := (searchCapture taskMarker content).getD []
    steps := (findSteps content).map (fun p => buildStep screenshotExists p.1 p.2) }

/-- The outcome of the PIL pipeline inside `_encode_screenshot`'s `try`
block (open, thumbnail to at most 800x800, re-encode as PNG, base64): either
the final base64 payload, or the exception message when any of those
operations raises. -/
inductive ImageResult where
  | ok (base64Data : List Char)
  | err (msg : List Char)
deriving DecidableEq, Repr

/-- One content part of a message: inline text, or an inlined base64 image
tagged with its media type. -/
inductive ContentPart where
  | text (s : List Char)
  | image (mediaType : List Char) (data : List Char)
deriving DecidableEq, Repr

/-- One message block of the assembled prompt. -/
structure Message where
  role : List Char
  content : List ContentPart
deriving DecidableEq, Repr

/-- `AgentRunAnalyzer._encode_screenshot`, with the PIL pipeline passed in
as the capability `img`: the optional image content part, and the lines
printed (`Error encoding screenshot ...` on the caught exception). The
`try/except` makes the function total: a failure yields `none`, never an
exception. -/
def encode_screenshot (img : Nat → ImageResult) (path : Nat) :
    Option ContentPart × List (List Char) :=
  match img path with
  | ImageResult.ok data => (some (ContentPart.image "image/png".toList data), [])
  | ImageResult.err e => (none, ["Error encoding screenshot: ".toList ++ e])

/-- The instruction text of the leading message block (the f-string at the
top of `generate_analysis_prompt`, interpolated with `self.task`). -/
def leadingText (task : List Char) : List Char :=
  "Task: ".toList ++ task ++ "

You are a specialized web application bug detection agent. Your task is to analyze agent-website interaction trajectories and identify potential bugs, glitches, and usability issues in the target website.
IMPORTANT: Focus on website malfunctions, NOT agent errors. Distinguish between agent mistakes and actual website problems. A small note:  the web browser is lauched from an automated browser, so it is not always the website that is causing the issue.
For bugs, consider both feature bugs (missing or incorrect functionality) and glitch-like bugs (visual or behavioral anomalies). Also consider any functionality that is not working as expected, these are not striclty bugs, but could pose difficulties for the website users to navigate. One example is light colored text on a light background, which is hard to read. Note that the type of bug is not always obvious, so don't be afraid to make an assumption. For example, if the website does not support certain features that the agent is trying to use, that is a bug (e.g. the agent is trying to use the \"add to cart\" feature, but the website does not have a cart, or that the agent is searching in some language that the website does not support).

For each step, I'll provide:
0. The screenshot of the current browser state
1. The agent's evaluation of the step
2. The next goal
3. The action taken

Please analyze the entire sequence of steps and identify:
1. Any unexpected behaviors or errors of the website itself (*note: not the agent's actions*)
2. Missing or incorrect functionality
3. Visual glitches or UI inconsistencies
4. Any other anomalies that might indicate bugs
5. Any functionality that is not working as expected, these are not striclty bugs, but could pose difficulties for the website users to navigate. One example is light colored text on a light background, which is hard to read.
Here's the step-by-step trajectory:

".toList

/-- The instruction text of the trailing message block. -/
def trailingText : List Char :=
  "
Based on the above trajectory, please provide:
1. A summary of any bugs or glitches identified
2. The specific steps where issues occurred
3. The nature of each issue (feature bug, visual glitch, etc.)
4. Any patterns or recurring problems
5. Recommendations for fixing the identified issues

For each identified issue, please specify:
- The step number where it occurred
- Whether it's a feature bug or visual glitch
- The severity of the issue
- The expected behavior vs actual behavior
".toList

/-- The leading message block (role `user`, one text part). -/
def leadingMessage (task : List Char) : Message :=
  { role := "user".toList, content := [ContentPart.text (leadingText task)] }

/-- The trailing message block (role `user`, one text part). -/
def trailingMessage : Message :=
  { role := "user".toList, content := [ContentPart.text trailingText] }

/-- The per-step f-string `step_text`. -/
def stepText (step : StepRecord) : List Char :=
  "\nStep ".toList ++ (toString step.step_number).toList
    ++ ":\nEvaluation: ".toList ++ step.evaluation
    ++ "\nNext Goal: ".toList ++ step.next_goal
    ++ "\nAction: ".toList ++ step.action
    ++ "\n".toList ++ List.replicate 80 '-' ++ "\n".toList

/-- The message block appended for one step: the encoded screenshot first
when the record has a path and the encoding succeeds, then the step's text
part. -/
def stepMessage (img : Nat → ImageResult) (step : StepRecord) : Message :=
  let step_content : List ContentPart :=
    match step.screenshot_path with
    | some p =>
      match (encode_screenshot img p).1 with
      | some part => [part]
      | none => []
    | none => []
  { role := "user".toList, content := step_content ++ [ContentPart.text (stepText step)] }

/-- `AgentRunAnalyzer.generate_analysis_prompt`: one leading instruction
block, then — mirroring the source's loop of `messages.append` — one block
per step in transcript order, then the trailing instruction block. -/
def generate_analysis_prompt (img : Nat → ImageResult) (t : RunTranscript) :
    List Message :=
  let messages := [leadingMessage t.task]
  let messages := t.steps.foldl (fun acc step => acc ++ [stepMessage img step]) messages
  messages ++ [trailingMessage]

end Analyze

namespace Auth

/-- The error raised by `get_credentials` (`ValueError(f"No credentials
found for {site}")`). -/
inductive CredError where
  | credentialsNotFound (site : List Char)
deriving DecidableEq, Repr

/-- Python truthiness of `keyring.get_password`'s result: `None` and the
empty string are falsy, every other string is truthy. -/
def pythonTruthy : Option (List Char) → Bool
  | none => false
  | some s => !s.isEmpty

/-- `SecureAuthManager.get_credentials`, with the keyring passed in as the
lookup capability `store` (key `f"{site}_user"` / `f"{site}_pass"` scoped by
the service name, `None` on a miss). The source guard is
`if not username or not password: raise ValueError(...)`. -/
def get_credentials (store : List Char → Option (List Char)) (site : List Char) :
    Except CredError (List Char × List Char) :=
  let username := store (site ++ "_user".toList)
  let password := store (site ++ "_pass".toList)
  if !pythonTruthy username || !pythonTruthy password then
    Except.error (CredError.credentialsNotFound site)
  else
    Except.ok (username.getD [], password.getD [])

/-- What can go wrong inside `load_auth_state`'s `try` block: `Fernet.decrypt`
on a bad ciphertext, `json.loads` on bad bytes, or `add_cookies`. -/
inductive AuthLoadError where
  | decryptFailed
  | jsonParseFailed
  | addCookiesFailed
deriving DecidableEq, Repr

/-- The log line of the `except` branch of `load_auth_state`. -/
def authErrorMsg : AuthLoadError → List Char
  | AuthLoadError.decryptFailed => "Failed to load auth state: decrypt failed".toList
  | AuthLoadError.jsonParseFailed => "Failed to load auth state: json parse failed".toList
  | AuthLoadError.addCookiesFailed => "Failed to load auth state: add cookies failed".toList

/-- The decrypted and parsed `auth_data` dictionary: the cookie list (opaque
to this layer) and the creation timestamp in seconds since the epoch. -/
structure AuthData where
  cookies : List (List Char)
  timestamp : Int
deriving DecidableEq, Repr

/-- `SecureAuthManager.load_auth_state`, with effects passed in explicitly:
whether the auth file exists, the joint outcome of reading, decrypting and
JSON-parsing it, the current time `time.time()` in whole seconds, and the
outcome of `session.context.add_cookies`. Returns the boolean result
together with the log lines; the `try/except` makes the function total, so
no failure propagates as an exception. -/
def load_auth_state (fileExists : Bool)
    (decryptParse : Except AuthLoadError AuthData) (now : Int)
    (addCookies : List (List Char) → Except AuthLoadError Unit) :
    Bool × List (List Char) :=
  if fileExists = false then (false, [])
  else
    match (do
        let auth_data ← decryptParse
        if now - auth_data.timestamp > 7 * 24 * 3600 then
          pure (false, ["Auth state is too old".toList])
        else do
          let _ ← addCookies auth_data.cookies
          pure (true, ["Loaded auth state".toList])
        : Except AuthLoadError (Bool × List (List Char))) with
    | Except.ok r => r
    | Except.error e => (false, [authErrorMsg e])

/-- A filesystem write performed by `save_auth_state` /
`_get_or_create_key` (both use `Path.write_bytes`). -/
inductive FsOp where
  | writeFile (path : List Char) (data : List Char)
deriving DecidableEq, Repr

/-- The key file path `auth_data/{profile}/.key`. -/
def keyPath (profile : List Char) : List Char :=
  "auth_data/".toList ++ profile ++ "/.key".toList

/-- The auth-state file path `auth_data/{profile}/{site}_auth.json`. -/
def authPath (profile site : List Char) : List Char :=
  "auth_data/".toList ++ profile ++ "/".toList ++ site ++ "_auth.json".toList

/-- `json.dumps({"cookies": cookies, "timestamp": timestamp})`, with the
cookie list already serialized (it is passed through opaquely). -/
def dumpsAuthData (cookies : List Char) (timestamp : Int) : List Char :=
  "\x7b\"cookies\": ".toList ++ cookies ++ ", \"timestamp\": ".toList
    ++ (toString timestamp).toList ++ "\x7d".toList

/-- `SecureAuthManager._get_or_create_key`: the key used and the writes
performed. `keyFile` is the current content of the key file (`none` when it
does not exist); `generatedKey` is what `Fernet.generate_key()` would
return. -/
def get_or_create_key (profile : List Char) (keyFile : Option (List Char))
    (generatedKey : List Char) : List Char × List FsOp :=
  match keyFile with
  | some k => (k, [])
  | none => (generatedKey, [FsOp.writeFile (keyPath profile) generatedKey])

/-- `SecureAuthManager.save_auth_state`: serialize `{cookies, timestamp=now}`,
encrypt with the profile's key (creating the key file if absent), and write
the ciphertext to the site-scoped path with a plain `Path.write_bytes`.
Fernet encryption is passed in as the capability `encrypt` (key, plaintext to
ciphertext). The result is the ordered list of writes performed. -/
def save_auth_state (encrypt : List Char → List Char → List Char)
    (profile site : List Char) (keyFile : Option (List Char))
    (generatedKey cookies : List Char) (now : Int) : List FsOp :=
  let kp := get_or_create_key profile keyFile generatedKey
  let encrypted := encrypt kp.1 (dumpsAuthData cookies now)
  kp.2 ++ [FsOp.writeFile (authPath profile site) encrypted]

/-- The contents a file passes through while `Path.write_bytes data` runs:
the file is opened with truncation and the payload then written, so every
prefix of the payload — starting with the empty file — is an observable
intermediate content. -/
def writeObservableContents (data : List Char) : List (List Char) :=
  (List.range (data.length + 1)).map (fun k => data.take k)

/-- The successive observable contents of the file at `path` (`none` while
it does not exist) when the writes `ops` are executed starting from content
`init`: the initial content, then for each write to `path` every
intermediate prefix, the write's final content persisting afterwards. -/
def fileStates (path : List Char) (init : Option (List Char)) :
    List FsOp → List (Option (List Char))
  | [] => [init]
  | FsOp.writeFile q d :: rest =>
    if q = path then
      init :: ((writeObservableContents d).map some ++ fileStates path (some d) rest)
    else
      init :: fileStates path init rest

end Auth

namespace Analyze

/-- A log text contains a step-marker line: some position matches the full
header `📍 Step (\d+)\n`. -/
def hasStepHeader : List Char → Bool
  | [] => false
  | c :: rest => (headerAt (c :: rest)).isSome || hasStepHeader rest

/-- A full action line as the log format produces it:
`🛠️  Action i/j: a` followed by a newline. -/
def actionLine (i j a : List Char) : List Char :=
  actionMarker ++ i ++ '/' :: (j ++ ':' :: ' ' :: (a ++ ['\n']))

/-- Example capability: every screenshot transcoding fails. -/
def exImgErr : Nat → ImageResult := fun _ => ImageResult.err "broken png".toList

/-- Example capability: no screenshot file exists. -/
def exNoShot : Nat → Bool := fun _ => false

/-- Example step record whose screenshot reference exists (path key 0). -/
def exStep : StepRecord :=
  { step_number := 1, evaluation := "ok".toList, next_goal := "go".toList,
    action := "act".toList, screenshot_path := some 0 }

/-- Example transcript with a single step. -/
def exTranscript : RunTranscript := { task := "t".toList, steps := [exStep] }

end Analyze

namespace Analyze

lemma foldl_snoc_eq_append_map {α β : Type} (f : α → β) :
    ∀ (l : List α) (init : List β),
      l.foldl (fun acc x => acc ++ [f x]) init = init ++ l.map f := by
  intro l
  induction l with
  | nil => intro init; simp
  | cons x xs ih => intro init; simp [ih, List.foldl_cons]

lemma generate_analysis_prompt_eq (img : Nat → ImageResult) (t : RunTranscript) :
    generate_analysis_prompt img t
      = leadingMessage t.task :: (t.steps.map (stepMessage img) ++ [trailingMessage]) := by
  simp [generate_analysis_prompt, foldl_snoc_eq_append_map]

/-- C1: for every transcript with N steps, `generate_analysis_prompt`
produces exactly N+2 message blocks: the leading instructional block, then
one block per step record in transcript order, then the trailing
instructional block. -/
theorem generate_analysis_prompt_blocks (img : Nat → ImageResult) (t : RunTranscript) :
    generate_analysis_prompt img t
      = leadingMessage t.task :: (t.steps.map (stepMessage img) ++ [trailingMessage])
    ∧ (generate_analysis_prompt img t).length = t.steps.length + 2 := by
  refine ⟨generate_analysis_prompt_eq img t, ?_⟩
  rw [generate_analysis_prompt_eq img t]
  simp

/-- C10: every message block of the assembled prompt — leading, per-step and
trailing — carries the role `user`. -/
theorem generate_analysis_prompt_roles (img : Nat → ImageResult) (t : RunTranscript) :
    ∀ m ∈ generate_analysis_prompt img t, m.role = "user".toList := by
  intro m hm
  rw [generate_analysis_prompt_eq img t] at hm
  rcases List.mem_cons.mp hm with h | h
  · subst h; rfl
  · rcases List.mem_append.mp h with h' | h'
    · rcases List.mem_map.mp h' with ⟨s, _, hs⟩
      subst hs; rfl
    · rcases List.mem_singleton.mp h' with rfl; rfl

/-- Witness for C10 at a concrete prompt: the leading block of the example
transcript's prompt has role `user`. -/
theorem generate_analysis_prompt_roles_witness :
    (leadingMessage exTranscript.task).role = "user".toList :=
  generate_analysis_prompt_roles exImgErr exTranscript
    (leadingMessage exTranscript.task)
    (by rw [generate_analysis_prompt_eq]; exact List.mem_cons_self _ _)

end Analyze

namespace Analyze

lemma takeDigits_snd_length : ∀ s : List Char, (takeDigits s).2.length ≤ s.length := by
  intro s
  induction s with
  | nil => simp [takeDigits]
  | cons c rest ih =>
    by_cases h : c.isDigit
    · simp only [takeDigits, h, if_true]
      exact Nat.le_succ_of_le ih
    · simp [takeDigits, h]

lemma scanContent_snd_length : ∀ s : List Char, (scanContent s).2.length ≤ s.length := by
  intro s
  induction s with
  | nil => simp [scanContent]
  | cons c rest ih =>
    by_cases h : (lookaheadHeader (c :: rest) || (c = '\n' && rest.isEmpty)) = true
    · simp [scanContent, h]
    · simp only [scanContent, h, if_false, Bool.false_eq_true]
      simpa using Nat.le_succ_of_le ih

lemma headerAt_some_length {s : List Char} {n : Nat} {r : List Char}
    (h : headerAt s = some (n, r)) : r.length < s.length := by
  unfold headerAt at h
  split at h
  · split at h
    · exact absurd h (by simp)
    · split at h
      · rename_i heq
        rw [Option.some.injEq, Prod.mk.injEq] at h
        obtain ⟨-, hr2⟩ := h
        subst hr2
        have h2 := takeDigits_snd_length (s.drop stepHeaderMarker.length)
        rw [heq] at h2
        simp only [List.length_cons] at h2
        have h3 : (s.drop stepHeaderMarker.length).length ≤ s.length := by
          simp [List.length_drop]
        omega
      · exact absurd h (by simp)
  · exact absurd h (by simp)

end Analyze

namespace Analyze

lemma findStepsFuel_eq_of_le : ∀ (f g : Nat) (s : List Char),
    s.length ≤ f → s.length ≤ g → findStepsFuel f s = findStepsFuel g s := by
  intro f
  induction f with
  | zero =>
    intro g s hf _
    have hs : s = [] := List.length_eq_zero.mp (Nat.le_zero.mp hf)
    subst hs
    cases g <;> rfl
  | succ f ih =>
    intro g s hf hg
    cases s with
    | nil => cases g <;> rfl
    | cons c rest =>
      cases g with
      | zero => simp at hg
      | succ g' =>
        simp only [findStepsFuel]
        cases hh : headerAt (c :: rest) with
        | none =>
          have h1 : rest.length ≤ f := by simp at hf; omega
          have h2 : rest.length ≤ g' := by simp at hg; omega
          exact ih g' rest h1 h2
        | some nr =>
          have hlt := headerAt_some_length hh
          have hsc := scanContent_snd_length nr.2
          simp only [List.length_cons] at hf hg hlt
          have h1 : (scanContent nr.2).2.length ≤ f := by omega
          have h2 : (scanContent nr.2).2.length ≤ g' := by omega
          show (nr.1, (scanContent nr.2).1) :: findStepsFuel f (scanContent nr.2).2
            = (nr.1, (scanContent nr.2).1) :: findStepsFuel g' (scanContent nr.2).2
          rw [ih g' _ h1 h2]

lemma findStepsFuel_nil_of_no_header : ∀ (fuel : Nat) (s : List Char),
    hasStepHeader s = false → findStepsFuel fuel s = [] := by
  intro fuel
  induction fuel with
  | zero => intro s _; cases s <;> rfl
  | succ f ih =>
    intro s h
    cases s with
    | nil => rfl
    | cons c rest =>
      simp only [hasStepHeader, Bool.or_eq_false_iff] at h
      obtain ⟨h1, h2⟩ := h
      simp only [findStepsFuel]
      cases hh : headerAt (c :: rest) with
      | none => exact ih rest h2
      | some nr => rw [hh] at h1; simp at h1

/-- C5: a log text with zero step-marker lines parses to an empty step
sequence (StepRecord count zero), with no error — `parse_log` is total. -/
theorem parse_log_no_step_markers (ex : Nat → Bool) (content : List Char)
    (h : hasStepHeader content = false) :
    (parse_log ex content).steps = [] := by
  simp [parse_log, findSteps, findStepsFuel_nil_of_no_header _ _ h]

/-- Witness for C5: a concrete log text with no step marker parses to zero
steps. -/
theorem parse_log_no_step_markers_witness :
    hasStepHeader "hello world\n".toList = false
    ∧ (parse_log exNoShot "hello world\n".toList).steps = [] :=
  ⟨by decide, parse_log_no_step_markers exNoShot "hello world\n".toList (by decide)⟩

end Analyze

namespace Analyze

lemma searchCapture_append (m0 : Char) (ms : List Char) :
    ∀ (pre rest : List Char), m0 ∉ pre →
      searchCapture (m0 :: ms) (pre ++ rest) = searchCapture (m0 :: ms) rest := by
  intro pre
  induction pre with
  | nil => intro rest _; rfl
  | cons c cs ih =>
    intro rest h
    simp only [List.mem_cons, not_or] at h
    obtain ⟨hc, hcs⟩ := h
    have hpre : (m0 :: ms).isPrefixOf (c :: (cs ++ rest)) = false := by
      by_contra hb
      rw [Bool.not_eq_false] at hb
      have hp := List.isPrefixOf_iff_prefix.mp hb
      rw [List.cons_prefix_cons] at hp
      exact hc hp.1
    simp [searchCapture, hpre]
    exact ih rest hcs

lemma searchCapture_eq_none (m0 : Char) (ms s : List Char) (h : m0 ∉ s) :
    searchCapture (m0 :: ms) s = none := by
  have hs := searchCapture_append m0 ms s [] h
  simpa using hs

lemma matchEvalAt_cons_none (c : Char) (s : List Char)
    (h1 : c ≠ '👍') (h2 : c ≠ '👎') (h3 : c ≠ '🤷') :
    matchEvalAt (c :: s) = none := by
  have he : evalEmoji c = false := by
    simp [evalEmoji, h1, h2, h3]
  simp [matchEvalAt, he]

lemma searchEval_append : ∀ (pre rest : List Char),
    '👍' ∉ pre → '👎' ∉ pre → '🤷' ∉ pre →
    searchEval (pre ++ rest) = searchEval rest := by
  intro pre
  induction pre with
  | nil => intro rest _ _ _; rfl
  | cons c cs ih =>
    intro rest h1 h2 h3
    simp only [List.mem_cons, not_or] at h1 h2 h3
    have hm := matchEvalAt_cons_none c (cs ++ rest)
      (Ne.symm h1.1) (Ne.symm h2.1) (Ne.symm h3.1)
    simp [searchEval, hm]
    exact ih rest h1.2 h2.2 h3.2

lemma searchEval_eq_none (s : List Char)
    (h1 : '👍' ∉ s) (h2 : '👎' ∉ s) (h3 : '🤷' ∉ s) : searchEval s = none := by
  have hs := searchEval_append s [] h1 h2 h3
  simpa using hs

lemma matchActionAt_cons_none (c : Char) (s : List Char) (h : c ≠ '🛠') :
    matchActionAt (c :: s) = none := by
  have hpre : actionMarker.isPrefixOf (c :: s) = false := by
    by_contra hb
    rw [Bool.not_eq_false] at hb
    have hp := List.isPrefixOf_iff_prefix.mp hb
    have hmk : actionMarker = '🛠' :: actionMarker.tail := by decide
    rw [hmk, List.cons_prefix_cons] at hp
    exact h hp.1.symm
  simp [matchActionAt, hpre]

lemma searchAction_append : ∀ (pre rest : List Char), '🛠' ∉ pre →
    searchAction (pre ++ rest) = searchAction rest := by
  intro pre
  induction pre with
  | nil => intro rest _; rfl
  | cons c cs ih =>
    intro rest h
    simp only [List.mem_cons, not_or] at h
    have hm := matchActionAt_cons_none c (cs ++ rest) (Ne.symm h.1)
    simp [searchAction, hm]
    exact ih rest h.2

lemma searchAction_eq_none (s : List Char) (h : '🛠' ∉ s) : searchAction s = none := by
  have hs := searchAction_append s [] h
  simpa using hs

/-- C4: a step section that contains none of the three optional lines — no
evaluation emoji, no goal marker, no action marker — parses to a StepRecord
with `evaluation = "Unknown"`, `next_goal = ""` and `action = ""`, with no
error (`parse_log` is total). -/
theorem parse_log_missing_lines_defaults (ex : Nat → Bool) (content : List Char)
    (i n : Nat) (sec : List Char)
    (hsec : (findSteps content)[i]? = some (n, sec))
    (h1 : '👍' ∉ sec) (h2 : '👎' ∉ sec) (h3 : '🤷' ∉ sec)
    (h4 : '🎯' ∉ sec) (h5 : '🛠' ∉ sec) :
    (parse_log ex content).steps[i]?
      = some { step_number := n
               evaluation := "Unknown".toList
               next_goal := []
               action := []
               screenshot_path := if ex n then some n else none } := by
  have hgoal : goalMarker = '🎯' :: goalMarker.tail := by decide
  have he := searchEval_eq_none sec h1 h2 h3
  have hg : searchCapture goalMarker sec = none := by
    rw [hgoal]
    exact searchCapture_eq_none _ _ _ h4
  have ha := searchAction_eq_none sec h5
  simp only [parse_log, List.getElem?_map, hsec, Option.map_some']
  simp [buildStep, he, hg, ha]

/-- Witness for C4: the single step of the log `📍 Step 1\nhello\n` has a
section with none of the optional lines, and parses to the default record. -/
theorem parse_log_missing_lines_defaults_witness :
    (findSteps "📍 Step 1\nhello\n".toList)[0]? = some (1, "hello".toList)
    ∧ (parse_log exNoShot "📍 Step 1\nhello\n".toList).steps[0]?
        = some { step_number := 1, evaluation := "Unknown".toList, next_goal := [],
                 action := [], screenshot_path := if exNoShot 1 then some 1 else none } :=
  ⟨by decide,
    parse_log_missing_lines_defaults exNoShot "📍 Step 1\nhello\n".toList 0 1
      "hello".toList (by decide) (by decide) (by decide) (by decide) (by decide)
      (by decide)⟩

end Analyze

namespace Analyze

lemma takeDigits_append_digits : ∀ (d : List Char) (x : Char) (r : List Char),
    (∀ c ∈ d, c.isDigit = true) → x.isDigit = false →
    takeDigits (d ++ x :: r) = (d, x :: r) := by
  intro d
  induction d with
  | nil => intro x r _ hx; simp [takeDigits, hx]
  | cons c cs ih =>
    intro x r hd hx
    have hc : c.isDigit = true := hd c (List.mem_cons_self c cs)
    have hcs : ∀ e ∈ cs, e.isDigit = true := fun e he => hd e (List.mem_cons_of_mem c he)
    simp [takeDigits, hc, ih x r hcs hx]

lemma takeToNewline_append : ∀ (a : List Char) (r : List Char), '\n' ∉ a →
    takeToNewline (a ++ '\n' :: r) = some a := by
  intro a
  induction a with
  | nil => intro r _; simp [takeToNewline]
  | cons c cs ih =>
    intro r h
    simp only [List.mem_cons, not_or] at h
    simp [takeToNewline, Ne.symm h.1, ih r h.2]

lemma matchActionAt_actionLine (d1 d2 a rest : List Char)
    (hd1 : d1 ≠ []) (hd1d : ∀ c ∈ d1, c.isDigit = true)
    (hd2 : d2 ≠ []) (hd2d : ∀ c ∈ d2, c.isDigit = true)
    (ha : '\n' ∉ a) :
    matchActionAt (actionLine d1 d2 a ++ rest) = some a := by
  have hshape : actionLine d1 d2 a ++ rest
      = actionMarker ++ (d1 ++ '/' :: (d2 ++ ':' :: ' ' :: (a ++ '\n' :: rest))) := by
    simp [actionLine]
  have hpre : actionMarker.isPrefixOf
      (actionMarker ++ (d1 ++ '/' :: (d2 ++ ':' :: ' ' :: (a ++ '\n' :: rest)))) = true :=
    List.isPrefixOf_iff_prefix.mpr (List.prefix_append _ _)
  have ht1 : takeDigits (d1 ++ '/' :: (d2 ++ ':' :: ' ' :: (a ++ '\n' :: rest)))
      = (d1, '/' :: (d2 ++ ':' :: ' ' :: (a ++ '\n' :: rest))) :=
    takeDigits_append_digits d1 '/' _ hd1d (by decide)
  have ht2 : takeDigits (d2 ++ ':' :: ' ' :: (a ++ '\n' :: rest))
      = (d2, ':' :: ' ' :: (a ++ '\n' :: rest)) :=
    takeDigits_append_digits d2 ':' _ hd2d (by decide)
  obtain ⟨e1, es1, rfl⟩ := List.exists_cons_of_ne_nil hd1
  obtain ⟨e2, es2, rfl⟩ := List.exists_cons_of_ne_nil hd2
  simp only [List.cons_append] at hpre ht1 ht2
  rw [hshape]
  simp [matchActionAt, hpre, List.drop_left, ht1, ht2, takeToNewline_append a rest ha]

lemma searchAction_of_matchActionAt (c : Char) (s cap : List Char)
    (h : matchActionAt (c :: s) = some cap) : searchAction (c :: s) = some cap := by
  simp [searchAction, h]

lemma searchAction_actionLine (d1 d2 a rest : List Char)
    (hd1 : d1 ≠ []) (hd1d : ∀ c ∈ d1, c.isDigit = true)
    (hd2 : d2 ≠ []) (hd2d : ∀ c ∈ d2, c.isDigit = true)
    (ha : '\n' ∉ a) :
    searchAction (actionLine d1 d2 a ++ rest) = some a := by
  have hm := matchActionAt_actionLine d1 d2 a rest hd1 hd1d hd2 hd2d ha
  rcases he : actionLine d1 d2 a ++ rest with _ | ⟨c, T⟩
  · have hlen : 0 < (actionLine d1 d2 a ++ rest).length := by
      simp [actionLine, actionMarker]
    rw [he] at hlen
    simp at hlen
  · rw [he] at hm
    exact searchAction_of_matchActionAt c T a hm

/-- C6: a step section that contains two or more action lines parses to a
StepRecord whose `action` field is the free text of the first action line
only; the later action lines are ignored. -/
theorem buildStep_first_action_only (ex : Nat → Bool) (n : Nat)
    (pre d1 d2 a1 mid e1 e2 a2 post : List Char)
    (hpre : '🛠' ∉ pre)
    (hd1 : d1 ≠ []) (hd1d : ∀ c ∈ d1, c.isDigit = true)
    (hd2 : d2 ≠ []) (hd2d : ∀ c ∈ d2, c.isDigit = true)
    (ha1 : '\n' ∉ a1) :
    (buildStep ex n
        (pre ++ (actionLine d1 d2 a1 ++ (mid ++ (actionLine e1 e2 a2 ++ post))))).action
      = a1 := by
  have h1 := searchAction_append pre
    (actionLine d1 d2 a1 ++ (mid ++ (actionLine e1 e2 a2 ++ post))) hpre
  have h2 := searchAction_actionLine d1 d2 a1 (mid ++ (actionLine e1 e2 a2 ++ post))
    hd1 hd1d hd2 hd2d ha1
  simp [buildStep, h1, h2]

/-- Witness for C6: a concrete section with two action lines parses to the
first action's text `click search`, ignoring `scroll down`. -/
theorem buildStep_first_action_only_witness :
    (buildStep exNoShot 1
        ("👍 Eval: ok\n".toList ++ (actionLine "1".toList "2".toList "click search".toList
          ++ ([] ++ (actionLine "2".toList "2".toList "scroll down".toList ++ []))))).action
      = "click search".toList :=
  buildStep_first_action_only exNoShot 1 "👍 Eval: ok\n".toList "1".toList "2".toList
    "click search".toList [] "2".toList "2".toList "scroll down".toList []
    (by decide) (by decide) (by decide) (by decide) (by decide) (by decide)

end Analyze

namespace Analyze

/-- C8: when a step's screenshot reference exists but the image fails to
transcode, the assembler logs the failure and omits the image part, yet the
step's message block is still present at its position in the prompt and
still carries the step's text part. -/
theorem step_block_on_encode_failure (img : Nat → ImageResult) (t : RunTranscript)
    (i p : Nat) (step : StepRecord) (e : List Char)
    (hi : t.steps[i]? = some step)
    (hp : step.screenshot_path = some p)
    (he : img p = ImageResult.err e) :
    (encode_screenshot img p).2 = ["Error encoding screenshot: ".toList ++ e]
    ∧ (generate_analysis_prompt img t)[i + 1]?
        = some { role := "user".toList, content := [ContentPart.text (stepText step)] } := by
  constructor
  · simp [encode_screenshot, he]
  · rw [generate_analysis_prompt_eq img t]
    obtain ⟨hilt, -⟩ := List.getElem?_eq_some.mp hi
    have hlen : i < (t.steps.map (stepMessage img)).length := by
      rw [List.length_map]; exact hilt
    rw [List.getElem?_cons_succ, List.getElem?_append_left hlen, List.getElem?_map, hi]
    simp [stepMessage, hp, encode_screenshot, he]

/-- Witness for C8: in the example transcript, the transcoding of step 1's
screenshot fails, the failure is logged, and block 1 of the prompt is the
step's text-only message. -/
theorem step_block_on_encode_failure_witness :
    (encode_screenshot exImgErr 0).2
      = ["Error encoding screenshot: ".toList ++ "broken png".toList]
    ∧ (generate_analysis_prompt exImgErr exTranscript)[0 + 1]?
        = some { role := "user".toList, content := [ContentPart.text (stepText exStep)] } :=
  step_block_on_encode_failure exImgErr exTranscript 0 0 exStep "broken png".toList
    (by decide) (by decide) (by decide)

end Analyze

namespace Auth

/-- C2: a stored auth state whose timestamp lies more than 7 days before the
current time is rejected by `load_auth_state` — it returns `False` and logs,
even though the file exists, decrypts and parses; a state at most 7 days old
is not rejected for age (with fresh data and successful cookie loading it
returns `True`). -/
theorem load_auth_state_expiry (ad : AuthData) (now : Int)
    (addCookies : List (List Char) → Except AuthLoadError Unit) :
    (now - ad.timestamp > 7 * 24 * 3600 →
      load_auth_state true (Except.ok ad) now addCookies
        = (false, ["Auth state is too old".toList]))
    ∧ (now - ad.timestamp ≤ 7 * 24 * 3600 → addCookies ad.cookies = Except.ok () →
      (load_auth_state true (Except.ok ad) now addCookies).1 = true) := by
  constructor
  · intro h
    have h' : (604800 : Int) < now - ad.timestamp := by omega
    simp [load_auth_state, h', Bind.bind, Except.bind, pure, Except.pure]
  · intro h hac
    have h' : ¬ (604800 : Int) < now - ad.timestamp := by omega
    simp [load_auth_state, h', hac, Bind.bind, Except.bind, pure, Except.pure,
      Functor.map, Except.map]

/-- Witness for C2: with timestamp 0, the state is rejected at time 604801
(8-days-old analogue: strictly more than 7*24*3600 = 604800 seconds) and
accepted at time 604800. -/
theorem load_auth_state_expiry_witness :
    ((604801 : Int) - (0 : Int) > 7 * 24 * 3600
      ∧ load_auth_state true (Except.ok ⟨[], 0⟩) 604801 (fun _ => Except.ok ())
          = (false, ["Auth state is too old".toList]))
    ∧ ((604800 : Int) - (0 : Int) ≤ 7 * 24 * 3600
      ∧ (load_auth_state true (Except.ok ⟨[], 0⟩) 604800 (fun _ => Except.ok ())).1 = true) :=
  ⟨⟨by decide,
    (load_auth_state_expiry ⟨[], 0⟩ 604801 (fun _ => Except.ok ())).1 (by decide)⟩,
   ⟨by decide,
    (load_auth_state_expiry ⟨[], 0⟩ 604800 (fun _ => Except.ok ())).2 (by decide) rfl⟩⟩

/-- C3: when decrypting the auth file with the current key fails, or the
decrypted bytes fail to parse as JSON (or the later cookie loading raises),
`load_auth_state` returns `False` and logs the failure; being a total
function into `Bool × logs`, it never propagates an exception. -/
theorem load_auth_state_failure (e : AuthLoadError) (now : Int)
    (addCookies : List (List Char) → Except AuthLoadError Unit) :
    load_auth_state true (Except.error e) now addCookies = (false, [authErrorMsg e]) := by
  simp [load_auth_state, Bind.bind, Except.bind]

end Auth

namespace Auth

/-- Example keyring content: for `siteA` the username half is stored but is
the empty string, the password half is `p`; nothing else is stored. -/
def storeEmptyUser : List Char → Option (List Char) :=
  fun k =>
    if k = "siteA_user".toList then some []
    else if k = "siteA_pass".toList then some "p".toList
    else none

/-- Example keyring content: `siteA` has username `u` and password `p`;
nothing else is stored. -/
def storeFull : List Char → Option (List Char) :=
  fun k =>
    if k = "siteA_user".toList then some "u".toList
    else if k = "siteA_pass".toList then some "p".toList
    else none

/-- Counterexample to C7 as stated: for `siteA` both halves are present in
the store, yet `get_credentials` fails — the source's Python-truthiness
guard `if not username or not password` also rejects a stored empty string,
so "both halves present implies the pair is returned" is false. -/
theorem get_credentials_counterexample :
    (storeEmptyUser ("siteA".toList ++ "_user".toList)).isSome = true
    ∧ (storeEmptyUser ("siteA".toList ++ "_pass".toList)).isSome = true
    ∧ get_credentials storeEmptyUser "siteA".toList
        = Except.error (CredError.credentialsNotFound "siteA".toList) := by
  refine ⟨by decide, by decide, by rfl⟩

/-- C7 (amended): `get_credentials` fails with `CredentialsNotFound` when
either half is absent **or stored as the empty string** (Python truthiness);
when both halves are present and non-empty it returns the pair. -/
theorem get_credentials_amended (store : List Char → Option (List Char))
    (site u p : List Char) :
    (pythonTruthy (store (site ++ "_user".toList)) = false
        ∨ pythonTruthy (store (site ++ "_pass".toList)) = false →
      get_credentials store site = Except.error (CredError.credentialsNotFound site))
    ∧ (store (site ++ "_user".toList) = some u → u ≠ [] →
       store (site ++ "_pass".toList) = some p → p ≠ [] →
      get_credentials store site = Except.ok (u, p)) := by
  constructor
  · intro h
    rcases h with h | h <;> simp at h <;> simp [get_credentials, h]
  · intro hu hu0 hp hp0
    have htu : pythonTruthy (store (site ++ "_user".toList)) = true := by
      rw [hu]; simp [pythonTruthy, hu0]
    have htp : pythonTruthy (store (site ++ "_pass".toList)) = true := by
      rw [hp]; simp [pythonTruthy, hp0]
    simp at hu hp htu htp
    simp [get_credentials, htu, htp, hu, hp]
    exact ⟨by simp [pythonTruthy, hu0], by simp [pythonTruthy, hp0]⟩

/-- Witness for C7 (amended): a store holding `("u","p")` for `siteA` round
trips, and `siteB` (never stored) fails with `CredentialsNotFound`. -/
theorem get_credentials_amended_witness :
    get_credentials storeFull "siteA".toList = Except.ok ("u".toList, "p".toList)
    ∧ get_credentials storeFull "siteB".toList
        = Except.error (CredError.credentialsNotFound "siteB".toList) :=
  ⟨(get_credentials_amended storeFull "siteA".toList "u".toList "p".toList).2
      (by decide) (by decide) (by decide) (by decide),
   (get_credentials_amended storeFull "siteB".toList [] []).1 (by decide)⟩

lemma keyPath_ne_authPath (profile site : List Char) :
    keyPath profile ≠ authPath profile site := by
  intro heq
  have hlen := congrArg List.length heq
  simp only [keyPath, authPath, List.length_append] at hlen
  have l1 : ("/.key".toList).length = 5 := by decide
  have l2 : ("/".toList).length = 1 := by decide
  have l3 : ("_auth.json".toList).length = 10 := by decide
  rw [l1, l2, l3] at hlen
  omega

lemma getLast?_cons_append_singleton {α : Type} (x : α) (l : List α) (y : α) :
    (x :: (l ++ [y])).getLast? = some y := by
  rw [show x :: (l ++ [y]) = (x :: l) ++ [y] by simp, List.getLast?_concat]

/-- The encrypted blob `save_auth_state` writes in the example run below
(identity encryption, cookies serialized as `[]`, timestamp 0). -/
def exBlob : List Char := dumpsAuthData "[]".toList 0

/-- The writes of the example `save_auth_state` run (profile
`test_profile`, site `siteA`, existing key `K`). -/
def exSaveOps : List FsOp :=
  save_auth_state (fun _ m => m) "test_profile".toList "siteA".toList
    (some "K".toList) "G".toList "[]".toList 0

/-- The observable contents of the auth file (initially absent) while the
example run executes. -/
def exAuthStates : List (Option (List Char)) :=
  fileStates (authPath "test_profile".toList "siteA".toList) none exSaveOps

/-- Counterexample to C9 as stated: during the example `save_auth_state`
run, the auth file is observable holding a proper non-empty prefix of the
encrypted blob — `Path.write_bytes` writes directly to the final path with
no temporary-file-and-rename step, so a partially written auth-state file
is observable and the write is not atomic. -/
theorem save_auth_state_not_atomic :
    some (exBlob.take 5) ∈ exAuthStates
    ∧ exBlob.take 5 ≠ exBlob
    ∧ some (exBlob.take 5) ≠ (none : Option (List Char)) := by
  refine ⟨by decide, by decide, by decide⟩

/-- C9 (amended): `save_auth_state` serializes `{cookies, timestamp=now}` to
JSON, encrypts it with the profile's symmetric key (creating the key file
exactly when it is absent), and writes the encrypted blob with a single
direct write to the profile/site-scoped path, after which the file holds
exactly the encrypted blob. The write is direct rather than atomic, so
partially written contents are observable while it runs (see the
counterexample). -/
theorem save_auth_state_spec (encrypt : List Char → List Char → List Char)
    (profile site : List Char) (keyFile : Option (List Char))
    (generatedKey cookies : List Char) (now : Int) (init : Option (List Char)) :
    save_auth_state encrypt profile site keyFile generatedKey cookies now
      = (match keyFile with
         | some _ => []
         | none => [FsOp.writeFile (keyPath profile) generatedKey])
        ++ [FsOp.writeFile (authPath profile site)
             (encrypt (keyFile.getD generatedKey) (dumpsAuthData cookies now))]
    ∧ (fileStates (authPath profile site) init
        (save_auth_state encrypt profile site keyFile generatedKey cookies now)).getLast?
      = some (some (encrypt (keyFile.getD generatedKey) (dumpsAuthData cookies now))) := by
  have hne := keyPath_ne_authPath profile site
  cases keyFile with
  | some k =>
    refine ⟨by simp [save_auth_state, get_or_create_key], ?_⟩
    have hops : save_auth_state encrypt profile site (some k) generatedKey cookies now
        = [FsOp.writeFile (authPath profile site)
            (encrypt k (dumpsAuthData cookies now))] := by
      simp [save_auth_state, get_or_create_key]
    rw [hops, fileStates, if_pos rfl, fileStates, Option.getD_some]
    exact getLast?_cons_append_singleton _ _ _
  | none =>
    refine ⟨by simp [save_auth_state, get_or_create_key], ?_⟩
    have hops : save_auth_state encrypt profile site none generatedKey cookies now
        = [FsOp.writeFile (keyPath profile) generatedKey,
           FsOp.writeFile (authPath profile site)
             (encrypt generatedKey (dumpsAuthData cookies now))] := by
      simp [save_auth_state, get_or_create_key]
    rw [hops, fileStates, if_neg hne, fileStates, if_pos rfl, fileStates, Option.getD_none]
    rw [show (init :: (init
          :: ((writeObservableContents (encrypt generatedKey (dumpsAuthData cookies now))).map some
            ++ [some (encrypt generatedKey (dumpsAuthData cookies now))])))
        = (init :: init
            :: (writeObservableContents (encrypt generatedKey (dumpsAuthData cookies now))).map some)
          ++ [some (encrypt generatedKey (dumpsAuthData cookies now))] by simp]
    rw [List.getLast?_concat]

end Auth
